import Mathlib

/-!
Verification of the FIPE web-scraping engine.

Shallow embedding, in Lean 4, of the core data model and algorithms of the
FIPE catalog scraper (source files `src/models/fipe_models.py`,
`src/utils/file_handler.py`, `src/api/fipe_client.py`,
`src/scrapers/values.py`, `src/scrapers/orchestrator.py`), together with
theorems settling the specification claims about identity-based merge,
on-disk consolidation, HTTP outcome classification, retry exhaustion,
request pacing, and the parallel extraction worker.

Conventions of the embedding:
* Python strings become `String`, integers become `Int`, counts become `Nat`.
* Wall-clock times (Python floats from `time.time()`) are modelled as `ℚ`.
* Mutation of a Python object becomes explicit state passing: a function
  returns the updated value.
* A Python function that may raise becomes a function into `Except`/`Option`,
  with the raising branches of the embedded code made explicit.
-/

namespace Fipe

/-- Entity `ReferencePeriod` from `src/models/fipe_models.py` (lines 12-67).
`period` is the "MM/yyyy" display string, `code` the server-assigned code.
Its Python `__eq__`/`__hash__` compare `period` alone. -/
structure ReferencePeriod where
  period : String
  code : Int
deriving DecidableEq

/-- Entity `Brand` from `src/models/fipe_models.py` (lines 70-116). Its
Python `__eq__`/`__hash__` compare `(name, vehicle_type)`. -/
structure Brand where
  name : String
  code : Int
  vehicle_type : String
  initial_period : Option String
deriving DecidableEq

/-- Entity `Model` from `src/models/fipe_models.py` (lines 119-176). Its
Python `__eq__`/`__hash__` compare `(fipe_code, vehicle_type)`. The `brand`
field is the owned reference serialized inline by `to_dict`. -/
structure Model where
  name : String
  code : Int
  fipe_code : String
  brand : Brand
  vehicle_type : String
deriving DecidableEq

/-- Entity `YearModel` from `src/models/fipe_models.py` (lines 179-231). Its
Python `__eq__`/`__hash__` compare `authentication` alone. -/
structure YearModel where
  description : String
  year_code : String
  authentication : String
  model : Model
deriving DecidableEq

/-- Entity `FipeValue` from `src/models/fipe_models.py` (lines 234-300). Its
Python `__eq__`/`__hash__` compare `(year_model.authentication,
reference_period)`. -/
structure FipeValue where
  year_model : YearModel
  average_price : String
  query_timestamp : String
  reference_period : String
  fipe_code : String
  fuel : String
deriving DecidableEq

/-- Entity container `ExtractionResult` from `src/models/fipe_models.py` (lines 303-363):
the five ordered entity collections. -/
structure ExtractionResult where
  reference_periods : List ReferencePeriod
  brands : List Brand
  models : List Model
  year_models : List YearModel
  fipe_values : List FipeValue
deriving DecidableEq

/-- The empty `ExtractionResult()` (all five collections empty). -/
def ExtractionResult.empty : ExtractionResult :=
  ⟨[], [], [], [], []⟩

/-! ## Identity keys (§3 of the spec, `__eq__`/`__hash__` in the source) -/

/-- Identity key of a `ReferencePeriod`: the period string alone. -/
def periodKey (p : ReferencePeriod) : String := p.period

/-- Identity key of a `Brand`: `(name, vehicle_type)`. -/
def brandKey (b : Brand) : String × String := (b.name, b.vehicle_type)

/-- Identity key of a `Model`: `(fipe_code, vehicle_type)`. -/
def modelKey (m : Model) : String × String := (m.fipe_code, m.vehicle_type)

/-- Identity key of a `YearModel`: `authentication` alone. -/
def yearModelKey (y : YearModel) : String := y.authentication

/-- Identity key of a `FipeValue`:
`(year_model.authentication, reference_period)`. -/
def fipeValueKey (v : FipeValue) : String × String :=
  (v.year_model.authentication, v.reference_period)

/-! ## In-memory merge (`ExtractionResult.merge`, fipe_models.py 326-363)

The Python code seeds a set with the identity keys of the `target` list,
then walks the `source` list appending each entity whose key is not yet in
the set and adding its key.  `mergeDedup` is that loop: the running `acc`
starts at `target` and the membership test `key x ∈ acc.map key` is exactly
membership in the running key set (keys are added exactly when entities are
appended). -/

/-- One entity kind's merge loop of `ExtractionResult.merge`. -/
def mergeDedup {α κ : Type} [DecidableEq κ] (key : α → κ)
    (target source : List α) : List α :=
  source.foldl (fun acc x => if key x ∈ acc.map key then acc else acc ++ [x]) target

/-- Method `ExtractionResult.merge` (fipe_models.py 326-363), with the Python
in-place mutation of `target` rendered as a returned value. -/
def ExtractionResult.merge (target source : ExtractionResult) : ExtractionResult where
  reference_periods := mergeDedup periodKey target.reference_periods source.reference_periods
  brands := mergeDedup brandKey target.brands source.brands
  models := mergeDedup modelKey target.models source.models
  year_models := mergeDedup yearModelKey target.year_models source.year_models
  fipe_values := mergeDedup fipeValueKey target.fipe_values source.fipe_values

/-- The entities of `source` that `mergeDedup` actually appends: those whose
key is neither in `target` nor earlier in `source`. -/
def newEntries {α κ : Type} [DecidableEq κ] (key : α → κ) :
    List α → List α → List α
  | _, [] => []
  | t, x :: s =>
      if key x ∈ t.map key then newEntries key t s
      else x :: newEntries key (t ++ [x]) s

/-- Bundle of the first-seen merge facts for one entity kind: the merged
list is the target followed by the genuinely new entities, every new entity
comes from the source with a key the target did not have, and a key is
present in the merge exactly when it is present in target or source. -/
def FirstSeenSpec {α κ : Type} [DecidableEq κ] (key : α → κ)
    (t s merged : List α) : Prop :=
  merged = t ++ newEntries key t s
  ∧ (∀ y ∈ newEntries key t s, y ∈ s ∧ key y ∉ t.map key)
  ∧ (∀ k, k ∈ merged.map key ↔ k ∈ t.map key ∨ k ∈ s.map key)

/-! ## On-disk consolidation (`FileHandler`, src/utils/file_handler.py)

`FileHandler.list_partial_files` (lines 77-89) returns
`list(partial_dir.glob("*.json"))`: the files whose name matches `*.json`,
in the order the directory enumeration yields them — `Path.glob` performs
no sorting and the source applies none.  The embedding therefore takes the
directory listing (filename paired with the parsed content of the file) as
an explicit input in enumeration order.

`FileHandler.consolidate_partials` (lines 92-198) walks the files in that
order and, per entity kind, appends an entry when its key's first component
is truthy (a non-empty string) and the key has not been seen; it then sorts
periods (descending by the raw period string), brands and models.  Note the
consolidation keys: year-models are keyed on
`(authentication, model.fipe_code)`, unlike the in-memory merge which keys
year-models on `authentication` alone, and entries with an empty first key
component are dropped entirely. -/

/-- Consolidation key for periods: the `period` field. -/
def cPeriodKey (p : ReferencePeriod) : String := p.period

/-- Consolidation key for brands: `(name, vehicle_type)`. -/
def cBrandKey (b : Brand) : String × String := (b.name, b.vehicle_type)

/-- Consolidation key for models: `(fipe_code, vehicle_type)`. -/
def cModelKey (m : Model) : String × String := (m.fipe_code, m.vehicle_type)

/-- Consolidation key for year-models:
`(authentication, model.fipe_code)` — not `authentication` alone. -/
def cYearModelKey (y : YearModel) : String × String :=
  (y.authentication, y.model.fipe_code)

/-- Consolidation key for FIPE values:
`(year_model.authentication, reference_period)`. -/
def cFipeValueKey (v : FipeValue) : String × String :=
  (v.year_model.authentication, v.reference_period)

/-- One entry step of the consolidation loop: the pair state is the seen-key
set and the output list of this entity kind; the entry is appended when the
truthiness test on its key passes and the key is unseen (`if key[0] and key
not in seen` in the source). -/
def dedupStep {α κ : Type} [DecidableEq κ] (key : α → κ) (truthy : κ → Bool)
    (p : List κ × List α) (x : α) : List κ × List α :=
  if truthy (key x) = true ∧ key x ∉ p.1 then (key x :: p.1, p.2 ++ [x]) else p

/-- The consolidation loop of one entity kind over one file's entry list. -/
def dedupFold {α κ : Type} [DecidableEq κ] (key : α → κ) (truthy : κ → Bool)
    (p : List κ × List α) (entries : List α) : List κ × List α :=
  entries.foldl (dedupStep key truthy) p

/-- The consolidation of one entity kind across all files.  The Python loop
nests files outside and kinds inside, but each kind's seen-set and output
list are private to the kind, so the per-kind result is the fold of that
kind's dedup loop over the files in file order. -/
def consolidateKind {α κ : Type} [DecidableEq κ] (key : α → κ)
    (truthy : κ → Bool) (files : List ExtractionResult)
    (proj : ExtractionResult → List α) : List α :=
  (files.foldl (fun p f => dedupFold key truthy p (proj f)) ([], [])).2

/-- Prefix test over character lists (used for string containment, suffix
and lexicographic-order tests, written structurally so that proofs can
evaluate them). -/
def charsStartWith : List Char → List Char → Bool
  | [], _ => true
  | _ :: _, [] => false
  | a :: as, b :: bs => a == b && charsStartWith as bs

/-- Containment `needle in hay` for character lists: some suffix of `hay` starts with
`needle`. -/
def charsContain (needle : List Char) : List Char → Bool
  | [] => needle.isEmpty
  | h :: t => charsStartWith needle (h :: t) || charsContain needle t

/-- Strict lexicographic order on character lists (the order of Python
filename sorting). -/
def charsLt : List Char → List Char → Bool
  | [], [] => false
  | [], _ :: _ => true
  | _ :: _, [] => false
  | a :: as, b :: bs => decide (a < b) || (a == b && charsLt as bs)

/-- Does `s` end with `suffix` (the `*.json` glob pattern test)? -/
def strEndsWith (s suffix : String) : Bool :=
  charsStartWith suffix.data.reverse s.data.reverse

/-- Method `FileHandler.list_partial_files`: keep the `*.json` entries of the
directory listing, in enumeration order (no sorting in the source). -/
def listPartialFiles (listing : List (String × ExtractionResult)) :
    List (String × ExtractionResult) :=
  listing.filter (fun e => strEndsWith e.1 ".json")

/-- Sort predicate for consolidated periods: descending by the raw period
string (`sort(key=..., reverse=True)`, stable). -/
def periodDescLe (a b : ReferencePeriod) : Bool := decide (b.period ≤ a.period)

/-- Sort predicate for consolidated brands: ascending by
`(vehicle_type, name)`. -/
def brandLe (a b : Brand) : Bool :=
  decide (a.vehicle_type < b.vehicle_type
    ∨ (a.vehicle_type = b.vehicle_type ∧ a.name ≤ b.name))

/-- Sort predicate for consolidated models: ascending by
`(vehicle_type, brand.name, name)`. -/
def modelLe (a b : Model) : Bool :=
  decide (a.vehicle_type < b.vehicle_type
    ∨ (a.vehicle_type = b.vehicle_type
        ∧ (a.brand.name < b.brand.name
            ∨ (a.brand.name = b.brand.name ∧ a.name ≤ b.name))))

/-- Method `FileHandler.consolidate_partials` (file_handler.py 92-198): read the
`*.json` files of the directory listing in enumeration order, deduplicate
each entity kind with its consolidation key and truthiness guard, then sort
periods, brands and models.  Each file's parsed content is its top-level
five entity arrays, which is what the source reads via `data.get(...)`. -/
def consolidateAll (listing : List (String × ExtractionResult)) :
    ExtractionResult :=
  let files := (listPartialFiles listing).map (fun e => e.2)
  { reference_periods :=
      (consolidateKind cPeriodKey (fun k => k != "") files
        (fun f => f.reference_periods)).mergeSort periodDescLe
    brands :=
      (consolidateKind cBrandKey (fun k => k.1 != "") files
        (fun f => f.brands)).mergeSort brandLe
    models :=
      (consolidateKind cModelKey (fun k => k.1 != "") files
        (fun f => f.models)).mergeSort modelLe
    year_models :=
      consolidateKind cYearModelKey (fun k => k.1 != "") files
        (fun f => f.year_models)
    fipe_values :=
      consolidateKind cFipeValueKey (fun k => k.1 != "") files
        (fun f => f.fipe_values) }

/-! ## Rate-limited client (`FipeClient`, src/api/fipe_client.py)

A single `_make_request` attempt classifies the transport outcome; the
`tenacity` `@retry` decorator (lines 72-85) retries `FipeRateLimitError`,
connection errors and timeouts up to `stop_after_attempt(MAX_RETRIES)`
invocations.  `reraise=True` is NOT passed, so by tenacity's documented
default exhausting the attempts raises `tenacity.RetryError` wrapping the
last attempt rather than re-raising the last exception itself. -/

/-- The parse status of a response body: unparseable JSON, a parsed JSON
object with an optional `"erro"` field, or a parsed non-object (array). -/
inductive Body
  | invalid
  | obj (erro : Option String)
  | arr
deriving DecidableEq

/-- A body that parsed as JSON and carries no `"erro"` field — the success
condition of a 200 response. -/
def bodyParsesClean : Body → Bool
  | .invalid => false
  | .obj (some _) => false
  | .obj none => true
  | .arr => true

/-- One transport invocation's outcome: an HTTP response with status, body
parse status and raw text, or a network-level timeout or connection error. -/
inductive TransportOutcome
  | http (status : Nat) (body : Body) (text : String)
  | timedOut
  | connFailed
deriving DecidableEq

/-- The exceptions a single `_make_request` attempt can raise:
`FipeRateLimitError`, `FipeRequestError`, `requests` timeout and connection
errors. -/
inductive AttemptError
  | rateLimit (msg : String)
  | request (msg : String)
  | timedOut
  | connFailed
deriving DecidableEq

/-- Python `str.lower` restricted to the ASCII range used by the keywords. -/
def lowerStr (s : String) : String := String.mk (s.data.map Char.toLower)

/-- The blocking-keyword test of `_make_request` (fipe_client.py 149):
`"timeout" in error_msg.lower() or "blocked" in error_msg.lower()`. -/
def isBlockingMsg (msg : String) : Bool :=
  charsContain "timeout".data (lowerStr msg).data
    || charsContain "blocked".data (lowerStr msg).data

/-- A single attempt of `FipeClient._make_request` (fipe_client.py 105-161):
classify one transport outcome into a returned body or a raised error. -/
def makeRequestOnce : TransportOutcome → Except AttemptError Body
  | .timedOut => .error .timedOut
  | .connFailed => .error .connFailed
  | .http status body text =>
      if status = 429 then .error (.rateLimit "Rate limit atingido")
      else if status ≠ 200 then
        if 500 ≤ status then
          .error (.rateLimit ("Erro de servidor: " ++ toString status))
        else
          .error (.request ("Erro HTTP " ++ toString status ++ ": " ++ text.take 200))
      else
        match body with
        | .invalid => .error (.request ("Resposta inválida: " ++ text.take 200))
        | .obj (some msg) =>
            if isBlockingMsg msg then .error (.rateLimit msg)
            else .error (.request msg)
        | b => .ok b

/-- The retry classification of the `@retry` decorator (fipe_client.py
79-83): `FipeRateLimitError`, `requests` connection errors and timeouts are
retried; `FipeRequestError` is not. -/
def isRetryable : AttemptError → Bool
  | .rateLimit _ => true
  | .request _ => false
  | .timedOut => true
  | .connFailed => true

/-- What a full client call can raise: a `tenacity.RetryError` wrapping the
last attempt after exhaustion, or an exception propagated directly. -/
inductive CallError
  | retryExhausted (last : AttemptError)
  | direct (e : AttemptError)
deriving DecidableEq

/-- The tenacity retry loop around `_make_request`, as configured at
fipe_client.py 72-85: run attempt `attempt`; return on success; on a
retryable error stop (wrapping the error in `RetryError`) once
`maxAttempts` attempts have run, otherwise back off and retry; propagate a
non-retryable error immediately.  The second component counts transport
invocations.  `gas` bounds the recursion; with `gas = maxAttempts` at entry
the `gas = 0` arm is never reached. -/
def runCallGo (maxAttempts : Nat) (transport : Nat → TransportOutcome)
    (attempt : Nat) : Nat → Except CallError Body × Nat
  | 0 => (.error (.retryExhausted .timedOut), 0)
  | g + 1 =>
      match makeRequestOnce (transport attempt) with
      | .ok b => (.ok b, 1)
      | .error e =>
          if isRetryable e then
            if maxAttempts ≤ attempt then (.error (.retryExhausted e), 1)
            else
              let r := runCallGo maxAttempts transport (attempt + 1) g
              (r.1, r.2 + 1)
          else (.error (.direct e), 1)

/-- A full client call: attempts are numbered from 1 and at most
`maxAttempts` transport invocations happen. -/
def runCall (maxAttempts : Nat) (transport : Nat → TransportOutcome) :
    Except CallError Body × Nat :=
  runCallGo maxAttempts transport 1 maxAttempts

/-! ## Pacing (`FipeClient._wait_for_rate_limit`, fipe_client.py 60-70)

The client keeps `_last_request_time`; before each request it sleeps until
at least `delay` has elapsed since that timestamp, then sets the timestamp
to the current time.  Wall-clock instants are rationals; the sleep is
modelled as waking exactly when the requested duration has elapsed (a
longer sleep only increases the gap). -/

/-- The moment the request is dispatched when the call reaches
`_wait_for_rate_limit` at wall-clock time `now` with stored timestamp
`last`: sleep `delay - elapsed` when `elapsed < delay`. -/
def dispatchTime (delay last now : ℚ) : ℚ :=
  let elapsed := now - last
  if elapsed < delay then now + (delay - elapsed) else now

/-- The dispatch times of a sequence of calls on one client instance,
given the stored timestamp `last` and the wall-clock arrival time of each
call; each dispatch updates the stored timestamp. -/
def paceTrace (delay : ℚ) : ℚ → List ℚ → List ℚ
  | _, [] => []
  | last, now :: rest =>
      let d := dispatchTime delay last now
      d :: paceTrace delay d rest

/-! ## Value extraction (`ValueScraper.extract_fipe_value`, values.py 80-148)

The scraper issues the value lookup; any exception from the client is
caught and `None` is returned.  On success it assigns the response's
`Autenticacao` to the caller's `YearModel`, backfills the response's
`CodigoFipe` into the owning `Model` only when the response's code is
non-empty and the model's current code is empty, and builds a `FipeValue`
from the response (`FipeValue.from_api_response`, fipe_models.py 275-300)
with `query_timestamp` the current clock reading, passed here as `ts`. -/

/-- The fields of a successful value-lookup response that the scraper
reads. -/
structure ValueResp where
  valor : String
  codigoFipe : String
  autenticacao : String
  combustivel : String
deriving DecidableEq

/-- Outcome of the value lookup for one year-model: the client call raised
(caught inside `extract_fipe_value`) or a parsed response. -/
inductive LookupOutcome
  | failure
  | success (resp : ValueResp)
deriving DecidableEq

/-- Method `ValueScraper.extract_fipe_value` (values.py 80-148): returns the
year-model after its in-place mutation together with the optional new
`FipeValue`.  The in-place mutation of the shared `Model` is rendered by
returning the year-model with its updated `model` field. -/
def extractFipeValue (period : ReferencePeriod) (ym : YearModel) (ts : String) :
    LookupOutcome → YearModel × Option FipeValue
  | .failure => (ym, none)
  | .success resp =>
      let m := ym.model
      let m1 := if resp.codigoFipe ≠ "" ∧ m.fipe_code = ""
        then { m with fipe_code := resp.codigoFipe } else m
      let ym1 := { ym with authentication := resp.autenticacao, model := m1 }
      (ym1, some
        { year_model := ym1
          average_price := resp.valor
          query_timestamp := ts
          reference_period := period.period
          fipe_code := resp.codigoFipe
          fuel := resp.combustivel })

/-! ## Parallel extraction worker (`_extract_worker`, orchestrator.py 47-110)

The worker recreates the period and brand, then runs
models → year-models → values for its (period, brand) pair, appending to a
fresh `ExtractionResult`.  Any exception inside the `try` block is caught
and logged, and the result accumulated so far is still returned.

The embedding drives the worker with a script recording, for each call the
worker's loops make, whether it raised and what it returned:
* `ModelScraper.extract_for_brand` either raises (`none`) or returns the
  models of the brand, each created with an empty `fipe_code`
  (models.py 94-103);
* `ValueScraper.extract_year_models` either raises (`none`) or returns the
  year-model rows, each created with an empty `authentication`
  (values.py 68-78);
* `ValueScraper.extract_fipe_value` either raises before its `try` block
  (`YmStep.raised`) or completes with a `LookupOutcome`. -/

/-- The row data of one model returned by the models lookup. -/
structure ModelSeed where
  name : String
  code : Int
deriving DecidableEq

/-- The row data of one year-model returned by the year-models lookup. -/
structure YmSeed where
  label : String
  value : String
deriving DecidableEq

/-- Behaviour of one `extract_fipe_value` call in the worker loop. -/
inductive YmStep
  | raised
  | lookup (out : LookupOutcome)
deriving DecidableEq

/-- Behaviour of one model's processing: the year-models call either raises
(`none`) or returns rows, each with its value-call behaviour. -/
structure ModelStep where
  seed : ModelSeed
  ymCall : Option (List (YmSeed × YmStep))
deriving DecidableEq

/-- Behaviour of one whole task: the models call either raises (`none`) or
returns the model rows with their behaviours. -/
structure WorkerScript where
  modelsCall : Option (List ModelStep)
deriving DecidableEq

/-- Constructor `Model.from_api_response` as called by `extract_for_brand`
(models.py 94-103): fipe_code starts empty. -/
def mkModel (brand : Brand) (seed : ModelSeed) : Model :=
  { name := seed.name
    code := seed.code
    fipe_code := ""
    brand := brand
    vehicle_type := brand.vehicle_type }

/-- Constructor `YearModel.from_api_response` as called by `extract_year_models`
(values.py 70-76): authentication starts empty. -/
def mkYearModel (seed : YmSeed) (m : Model) : YearModel :=
  { description := seed.label
    year_code := seed.value
    authentication := ""
    model := m }

/-- Does this year-model step raise? -/
def YmStep.isRaise : YmStep → Bool
  | .raised => true
  | .lookup _ => false

/-- Does the processing of this model raise at some point? -/
def ModelStep.raises (s : ModelStep) : Bool :=
  match s.ymCall with
  | none => true
  | some l => l.any (fun p => p.2.isRaise)

/-- Does the task's execution raise at some point? -/
def WorkerScript.raises (s : WorkerScript) : Bool :=
  match s.modelsCall with
  | none => true
  | some l => l.any ModelStep.raises

/-- The worker's inner year-model loop (orchestrator.py 86-96): on success
append the (mutated) year-model and the value, then update the model's
`fipe_code` when the value carries one and the model has none — the same
guard `extract_fipe_value` itself already applied.  A raise aborts the loop
carrying the partial accumulation (`Except.error`). -/
def runYearModels (period : ReferencePeriod) (ts : String) :
    Model → ExtractionResult → List (YmSeed × YmStep) →
    Except ExtractionResult (Model × ExtractionResult)
  | m, acc, [] => .ok (m, acc)
  | m, acc, (seed, step) :: rest =>
      match step with
      | .raised => .error acc
      | .lookup out =>
          let r := extractFipeValue period (mkYearModel seed m) ts out
          match r.2 with
          | none => runYearModels period ts m acc rest
          | some v =>
              let acc1 := { acc with
                year_models := acc.year_models ++ [r.1]
                fipe_values := acc.fipe_values ++ [v] }
              let m1 := r.1.model
              let m2 := if v.fipe_code ≠ "" ∧ m1.fipe_code = ""
                then { m1 with fipe_code := v.fipe_code } else m1
              runYearModels period ts m2 acc1 rest

/-- The worker's model loop (orchestrator.py 83-100): after a model's
year-models are processed, the model joins the result only when its
`fipe_code` is non-empty. -/
def runModels (period : ReferencePeriod) (brand : Brand) (ts : String) :
    ExtractionResult → List ModelStep → Except ExtractionResult ExtractionResult
  | acc, [] => .ok acc
  | acc, step :: rest =>
      match step.ymCall with
      | none => .error acc
      | some ymSteps =>
          match runYearModels period ts (mkModel brand step.seed) acc ymSteps with
          | .error acc1 => .error acc1
          | .ok (m1, acc1) =>
              let acc2 := if m1.fipe_code ≠ ""
                then { acc1 with models := acc1.models ++ [m1] } else acc1
              runModels period brand ts acc2 rest

/-- Worker `_extract_worker` (orchestrator.py 47-110): run the extraction chain in
a `try` block; on an exception the partial result accumulated so far is
returned (the trailing `result.brands.append(brand)` of the `try` block is
skipped); on completion the brand is appended. -/
def extractWorker (period : ReferencePeriod) (brand : Brand) (ts : String)
    (script : WorkerScript) : ExtractionResult :=
  match script.modelsCall with
  | none => ExtractionResult.empty
  | some steps =>
      match runModels period brand ts ExtractionResult.empty steps with
      | .error acc => acc
      | .ok acc => { acc with brands := acc.brands ++ [brand] }

/-- Total number of entities a fragment contributes to the aggregate. -/
def entityCount (r : ExtractionResult) : Nat :=
  r.reference_periods.length + r.brands.length + r.models.length
    + r.year_models.length + r.fipe_values.length

/-- The accumulated result carried by the year-model loop, whether the loop
completed or was aborted by a raise. -/
def ymAcc : Except ExtractionResult (Model × ExtractionResult) → ExtractionResult
  | .error a => a
  | .ok (_, a) => a

/-- The accumulated result carried by the model loop, whether the loop
completed or was aborted by a raise. -/
def mAcc : Except ExtractionResult ExtractionResult → ExtractionResult
  | .error a => a
  | .ok a => a

/-! ## Configuration defaults (src/utils/config.py) -/

/-- Default of `Config.MAX_RETRIES` (config.py line 35). -/
def MAX_RETRIES : Nat := 5

/-- Default of `Config.DELAY_BETWEEN_REQUESTS`, in seconds (config.py line 40). -/
def DELAY_BETWEEN_REQUESTS : ℚ := 1 / 2

/-! ## Concrete instances used by counterexamples and witnesses -/

/-- A concrete brand (the spec's §8 end-to-end scenario). -/
def wBrand : Brand := ⟨"FIAT", 21, "car", none⟩

/-- A concrete model owned by `wBrand`. -/
def wModel : Model := ⟨"UNO", 123, "001004-9", wBrand, "car"⟩

/-- A concrete reference period. -/
def wPeriod : ReferencePeriod := ⟨"01/2024", 320⟩

/-- A year-model whose `authentication` is still empty. -/
def cxYmNoAuth : YearModel := ⟨"2024 Gasolina", "2024-1", "", wModel⟩

/-- A FipeValue with an empty `authentication` key component. -/
def cxValNoAuth1 : FipeValue :=
  ⟨cxYmNoAuth, "R$ 1", "t1", "01/2024", "001004-9", "Gasolina"⟩

/-- A second FipeValue with the same empty-`authentication` key. -/
def cxValNoAuth2 : FipeValue :=
  ⟨cxYmNoAuth, "R$ 2", "t2", "01/2024", "001004-9", "Gasolina"⟩

/-- First partial file of the C1 counterexample. -/
def cxFileA : ExtractionResult := ⟨[], [], [], [], [cxValNoAuth1]⟩

/-- Second partial file of the C1 counterexample. -/
def cxFileB : ExtractionResult := ⟨[], [], [], [], [cxValNoAuth2]⟩

/-- Directory listing of the C1 counterexample. -/
def cxListingC1 : List (String × ExtractionResult) :=
  [("batch_0.json", cxFileA), ("batch_1.json", cxFileB)]

/-- A year-model with a resolved `authentication`. -/
def wYmAuth : YearModel := ⟨"2024 Gasolina", "2024-1", "abc123", wModel⟩

/-- A FipeValue keyed `("abc123", "01/2024")`. -/
def wVal1 : FipeValue := ⟨wYmAuth, "R$ 1", "t1", "01/2024", "001004-9", "Gasolina"⟩

/-- Another FipeValue with the same `("abc123", "01/2024")` key. -/
def wVal2 : FipeValue := ⟨wYmAuth, "R$ 2", "t2", "01/2024", "001004-9", "Gasolina"⟩

/-- Directory listing of the C1 witness: two partial files, each holding a
FipeValue with the same resolved key. -/
def wListingC1 : List (String × ExtractionResult) :=
  [("batch_0.json", ⟨[], [], [], [], [wVal1]⟩),
   ("batch_1.json", ⟨[], [], [], [], [wVal2]⟩)]

/-- First-enumerated file of the C7 counterexample, named "b.json". -/
def cxFileBrand1 : ExtractionResult := ⟨[], [⟨"X", 1, "car", none⟩], [], [], []⟩

/-- Second-enumerated file of the C7 counterexample, named "a.json". -/
def cxFileBrand2 : ExtractionResult := ⟨[], [⟨"X", 2, "car", none⟩], [], [], []⟩

/-- Directory listing of the C7 counterexample: the enumeration yields
"b.json" before "a.json" (glob order is not sorted). -/
def cxListingC7 : List (String × ExtractionResult) :=
  [("b.json", cxFileBrand1), ("a.json", cxFileBrand2)]

/-- A successful value-lookup response (the spec's §8 scenario). -/
def wResp : ValueResp := ⟨"R$ 35.000,00", "001004-9", "abc123", "Gasolina"⟩

/-- C2 counterexample script: the first value lookup of the only model
succeeds, the second raises, so the worker's `try` block aborts after two
entities were appended. -/
def cxScriptC2 : WorkerScript :=
  ⟨some [⟨⟨"UNO", 123⟩,
    some [(⟨"2024 Gasolina", "2024-1"⟩, .lookup (.success wResp)),
          (⟨"2023 Gasolina", "2023-1"⟩, .raised)]⟩]⟩

/-- C10 witness script: the only model's only value lookup fails, so the
model ends with an empty `fipe_code`. -/
def wScriptC10 : WorkerScript :=
  ⟨some [⟨⟨"UNO", 123⟩, some [(⟨"2024 Gasolina", "2024-1"⟩, .lookup .failure)]⟩]⟩

/-- A fully successful one-model script: its value lookup resolves the
model's `fipe_code`. -/
def wScriptOk : WorkerScript :=
  ⟨some [⟨⟨"UNO", 123⟩,
    some [(⟨"2024 Gasolina", "2024-1"⟩, .lookup (.success wResp))]⟩]⟩

/-- Merging two one-YearModel results with the same `authentication`:
target side. -/
def wErA : ExtractionResult := ⟨[], [], [], [⟨"2024 d1", "2024-1", "auth1", wModel⟩], []⟩

/-- Merging two one-YearModel results with the same `authentication`:
source side, same identity, different description. -/
def wErB : ExtractionResult := ⟨[], [], [], [⟨"2024 d2", "2024-3", "auth1", wModel⟩], []⟩

/-- An always-timing-out transport. -/
def wTransportTimeout : Nat → TransportOutcome := fun _ => TransportOutcome.timedOut

/-- All brand entries of the partial files, concatenated in enumeration
order (the order consolidation reads them). -/
def allPartialBrands (listing : List (String × ExtractionResult)) : List Brand :=
  ((listPartialFiles listing).map (fun e : String × ExtractionResult => e.2)).flatMap
    (fun f => f.brands)

/-- A model whose `fipe_code` is still unresolved (empty). -/
def wModelNoCode : Model := ⟨"UNO", 123, "", wBrand, "car"⟩

/-- A year-model owned by `wModelNoCode`, authentication unresolved. -/
def wYmEmpty : YearModel := ⟨"2024 Gasolina", "2024-1", "", wModelNoCode⟩

theorem mergeDedup_nil {α κ : Type} [DecidableEq κ] (key : α → κ) (t : List α) :
    mergeDedup key t [] = t := rfl

theorem mergeDedup_cons {α κ : Type} [DecidableEq κ] (key : α → κ)
    (t : List α) (x : α) (s : List α) :
    mergeDedup key t (x :: s)
      = mergeDedup key (if key x ∈ t.map key then t else t ++ [x]) s := rfl

theorem newEntries_cons_old {α κ : Type} [DecidableEq κ] {key : α → κ}
    {t : List α} {x : α} (s : List α) (h : key x ∈ t.map key) :
    newEntries key t (x :: s) = newEntries key t s := by
  simp only [newEntries, if_pos h]

theorem newEntries_cons_new {α κ : Type} [DecidableEq κ] {key : α → κ}
    {t : List α} {x : α} (s : List α) (h : key x ∉ t.map key) :
    newEntries key t (x :: s) = x :: newEntries key (t ++ [x]) s := by
  simp only [newEntries, if_neg h]

/-- Function `mergeDedup` keeps the whole target list unchanged, in place, and appends
exactly the `newEntries`. -/
theorem mergeDedup_eq_append {α κ : Type} [DecidableEq κ] (key : α → κ)
    (s t : List α) :
    mergeDedup key t s = t ++ newEntries key t s := by
  induction s generalizing t with
  | nil => simp [mergeDedup, newEntries]
  | cons x s ih =>
      rw [mergeDedup_cons]
      by_cases h : key x ∈ t.map key
      · rw [if_pos h, ih t, newEntries_cons_old s h]
      · rw [if_neg h, ih (t ++ [x]), newEntries_cons_new s h,
          List.append_assoc, List.singleton_append]

/-- Every appended entity comes from the source and its key was absent from
the target: first-seen wins, the incoming duplicate is discarded. -/
theorem newEntries_mem {α κ : Type} [DecidableEq κ] (key : α → κ)
    (s t : List α) :
    ∀ y ∈ newEntries key t s, y ∈ s ∧ key y ∉ t.map key := by
  induction s generalizing t with
  | nil => intro y hy; simp [newEntries] at hy
  | cons x s ih =>
      intro y hy
      by_cases h : key x ∈ t.map key
      · rw [newEntries_cons_old s h] at hy
        rcases ih t y hy with ⟨h1, h2⟩
        exact ⟨List.mem_cons_of_mem _ h1, h2⟩
      · rw [newEntries_cons_new s h] at hy
        rcases List.mem_cons.mp hy with rfl | hy'
        · exact ⟨List.mem_cons_self _ _, h⟩
        · rcases ih (t ++ [x]) y hy' with ⟨h1, h2⟩
          refine ⟨List.mem_cons_of_mem _ h1, fun hc => h2 ?_⟩
          simpa using Or.inl hc

/-- The keys present after a merge are exactly the keys of target and source:
membership is order-independent. -/
theorem mem_map_mergeDedup {α κ : Type} [DecidableEq κ] (key : α → κ)
    (s t : List α) (k : κ) :
    k ∈ (mergeDedup key t s).map key ↔ k ∈ t.map key ∨ k ∈ s.map key := by
  induction s generalizing t with
  | nil => simp [mergeDedup]
  | cons x s ih =>
      rw [mergeDedup_cons]
      by_cases h : key x ∈ t.map key
      · rw [if_pos h, ih]
        constructor
        · intro hc; rcases hc with hc | hc
          · exact Or.inl hc
          · exact Or.inr (by simp [hc])
        · intro hc
          rcases hc with hc | hc
          · exact Or.inl hc
          · simp only [List.map_cons, List.mem_cons] at hc
            rcases hc with rfl | hc
            · exact Or.inl h
            · exact Or.inr hc
      · rw [if_neg h, ih]
        simp only [List.map_append, List.map_cons, List.map_nil,
          List.mem_append, List.mem_cons, List.not_mem_nil, or_false,
          List.mem_singleton]
        tauto

theorem firstSeenSpec_mergeDedup {α κ : Type} [DecidableEq κ] (key : α → κ)
    (t s : List α) : FirstSeenSpec key t s (mergeDedup key t s) :=
  ⟨mergeDedup_eq_append key s t, newEntries_mem key s t,
    fun k => mem_map_mergeDedup key s t k⟩

/-- When every source key is already a target key, the merge loop appends
nothing. -/
theorem mergeDedup_eq_of_keys_subset {α κ : Type} [DecidableEq κ] (key : α → κ) :
    ∀ (s t : List α), (∀ x ∈ s, key x ∈ t.map key) → mergeDedup key t s = t := by
  intro s
  induction s with
  | nil => intro t _; rfl
  | cons x s ih =>
      intro t h
      rw [mergeDedup_cons, if_pos (h x (List.mem_cons_self x s))]
      exact ih t (fun y hy => h y (List.mem_cons_of_mem x hy))

/-- Claim C8: merge is idempotent — `merge(R, R)` leaves the count of every
one of the five entity collections of `R` unchanged. -/
theorem merge_self_preserves_counts (R : ExtractionResult) :
    (R.merge R).reference_periods.length = R.reference_periods.length
  ∧ (R.merge R).brands.length = R.brands.length
  ∧ (R.merge R).models.length = R.models.length
  ∧ (R.merge R).year_models.length = R.year_models.length
  ∧ (R.merge R).fipe_values.length = R.fipe_values.length := by
  have h : ∀ {α κ : Type} [DecidableEq κ] (key : α → κ) (l : List α),
      mergeDedup key l l = l := by
    intro α κ _ key l
    exact mergeDedup_eq_of_keys_subset key l l
      (fun x hx => List.mem_map_of_mem key hx)
  refine ⟨?_, ?_, ?_, ?_, ?_⟩ <;>
    simp only [ExtractionResult.merge] <;> rw [h]

/-- Claim C4: merge has first-seen-wins semantics for every entity kind —
an entity of the source whose identity key is already present in the target
is discarded (the target entries are kept in place and every appended entity
comes from the source with a previously absent key), and the set of identity
keys per kind after merging A then B equals the one after merging B then A,
while the retained attribute values may differ with the order. -/
theorem merge_first_seen_wins (A B : ExtractionResult) :
    FirstSeenSpec periodKey A.reference_periods B.reference_periods
      (A.merge B).reference_periods
  ∧ FirstSeenSpec brandKey A.brands B.brands (A.merge B).brands
  ∧ FirstSeenSpec modelKey A.models B.models (A.merge B).models
  ∧ FirstSeenSpec yearModelKey A.year_models B.year_models (A.merge B).year_models
  ∧ FirstSeenSpec fipeValueKey A.fipe_values B.fipe_values (A.merge B).fipe_values
  ∧ (∀ k, k ∈ (A.merge B).reference_periods.map periodKey
        ↔ k ∈ (B.merge A).reference_periods.map periodKey)
  ∧ (∀ k, k ∈ (A.merge B).brands.map brandKey
        ↔ k ∈ (B.merge A).brands.map brandKey)
  ∧ (∀ k, k ∈ (A.merge B).models.map modelKey
        ↔ k ∈ (B.merge A).models.map modelKey)
  ∧ (∀ k, k ∈ (A.merge B).year_models.map yearModelKey
        ↔ k ∈ (B.merge A).year_models.map yearModelKey)
  ∧ (∀ k, k ∈ (A.merge B).fipe_values.map fipeValueKey
        ↔ k ∈ (B.merge A).fipe_values.map fipeValueKey) := by
  refine ⟨firstSeenSpec_mergeDedup _ _ _, firstSeenSpec_mergeDedup _ _ _,
    firstSeenSpec_mergeDedup _ _ _, firstSeenSpec_mergeDedup _ _ _,
    firstSeenSpec_mergeDedup _ _ _, ?_, ?_, ?_, ?_, ?_⟩ <;>
  · intro k
    show k ∈ (mergeDedup _ _ _).map _ ↔ k ∈ (mergeDedup _ _ _).map _
    rw [mem_map_mergeDedup, mem_map_mergeDedup]
    exact Or.comm

/-- Witness for C4: with a target and a source each holding one `YearModel`
with the same `authentication` identity but different descriptions, the
merge keeps exactly the target's entry (the source's is discarded). -/
theorem merge_first_seen_wins_witness :
    (wErA.merge wErB).year_models = [⟨"2024 d1", "2024-1", "auth1", wModel⟩] := by
  have h := (merge_first_seen_wins wErA wErB).2.2.2.1.1
  rw [h]
  rfl

/-! ## Consolidation lemmas -/

theorem dedupFold_nil {α κ : Type} [DecidableEq κ] (key : α → κ)
    (truthy : κ → Bool) (p : List κ × List α) :
    dedupFold key truthy p [] = p := rfl

theorem dedupFold_cons {α κ : Type} [DecidableEq κ] (key : α → κ)
    (truthy : κ → Bool) (p : List κ × List α) (x : α) (es : List α) :
    dedupFold key truthy p (x :: es)
      = dedupFold key truthy (dedupStep key truthy p x) es := rfl

/-- What one kind's consolidation keeps for a key `k` whose truthiness test
passes: the entries of the accumulator with key `k`, followed — when `k` is
still unseen — by the first incoming entry with key `k`, if any.  The
hypothesis ties the seen-set to the accumulator as the loop maintains it. -/
theorem dedupFold_filter_eq {α κ : Type} [DecidableEq κ] (key : α → κ)
    (truthy : κ → Bool) (k : κ) (hk : truthy k = true) :
    ∀ (es : List α) (seen : List κ) (acc : List α),
      (k ∈ seen ↔ acc.filter (fun x => decide (key x = k)) ≠ []) →
      (dedupFold key truthy (seen, acc) es).2.filter (fun x => decide (key x = k))
        = acc.filter (fun x => decide (key x = k))
          ++ (if k ∈ seen then []
              else (es.find? (fun x => decide (key x = k))).toList) := by
  intro es
  induction es with
  | nil =>
      intro seen acc _
      by_cases h : k ∈ seen <;>
        simp [dedupFold_nil, h]
  | cons x es ih =>
      intro seen acc hinv
      rw [dedupFold_cons]
      by_cases hx : key x = k
      · subst hx
        by_cases hs : key x ∈ seen
        · have hstep : dedupStep key truthy (seen, acc) x = (seen, acc) := by
            simp [dedupStep, hs]
          rw [hstep, ih seen acc hinv, if_pos hs, if_pos hs]
        · have hstep : dedupStep key truthy (seen, acc) x
              = (key x :: seen, acc ++ [x]) := by
            simp [dedupStep, hs, hk]
          have hacc : acc.filter (fun y => decide (key y = key x)) = [] := by
            by_contra hne
            exact hs (hinv.mpr hne)
          have hinv2 : key x ∈ key x :: seen
              ↔ (acc ++ [x]).filter (fun y => decide (key y = key x)) ≠ [] := by
            simp [List.filter_append, hacc]
          rw [hstep, ih (key x :: seen) (acc ++ [x]) hinv2, if_neg hs,
            if_pos (List.mem_cons_self _ _)]
          simp [List.filter_append, hacc, List.find?_cons]
      · have hfx : (fun y => decide (key y = k)) x = false := by
          simp [hx]
        have hfilter : ∀ l : List α,
            (l ++ [x]).filter (fun y => decide (key y = k))
              = l.filter (fun y => decide (key y = k)) := by
          intro l; simp [List.filter_append, hfx]
        by_cases hs : truthy (key x) = true ∧ key x ∉ seen
        · have hstep : dedupStep key truthy (seen, acc) x
              = (key x :: seen, acc ++ [x]) := by
            simp [dedupStep, hs.1, hs.2]
          have hmem : k ∈ key x :: seen ↔ k ∈ seen := by
            simp [List.mem_cons]
            intro hkk
            exact absurd hkk.symm hx
          have hinv2 : k ∈ key x :: seen
              ↔ (acc ++ [x]).filter (fun y => decide (key y = k)) ≠ [] := by
            rw [hmem, hfilter]; exact hinv
          rw [hstep, ih (key x :: seen) (acc ++ [x]) hinv2, hfilter]
          by_cases hks : k ∈ seen
          · rw [if_pos (hmem.mpr hks), if_pos hks]
          · rw [if_neg (fun hc => hks (hmem.mp hc)), if_neg hks,
              List.find?_cons_of_neg _ (by simp [hx])]
        · have hstep : dedupStep key truthy (seen, acc) x = (seen, acc) := by
            simp only [dedupStep, if_neg hs]
          rw [hstep, ih seen acc hinv]
          by_cases hks : k ∈ seen
          · rw [if_pos hks, if_pos hks]
          · rw [if_neg hks, if_neg hks,
              List.find?_cons_of_neg _ (by simp [hx])]

/-- The per-kind consolidation across files equals one dedup loop over the
concatenation of that kind's entries in file order. -/
theorem consolidateKind_eq_dedupFold {α κ : Type} [DecidableEq κ]
    (key : α → κ) (truthy : κ → Bool) (proj : ExtractionResult → List α) :
    ∀ (files : List ExtractionResult) (p : List κ × List α),
      files.foldl (fun q f => dedupFold key truthy q (proj f)) p
        = dedupFold key truthy p (files.flatMap proj) := by
  intro files
  induction files with
  | nil => intro p; rfl
  | cons f fs ih =>
      intro p
      rw [List.foldl_cons, ih, List.flatMap_cons]
      simp only [dedupFold, List.foldl_append]

/-- Specialization: the consolidated list of one kind, before any sorting,
filtered to a truthy key `k`, is the first entry carrying `k` across the
files' concatenated entries, if any. -/
theorem consolidateKind_filter_eq {α κ : Type} [DecidableEq κ]
    (key : α → κ) (truthy : κ → Bool) (proj : ExtractionResult → List α)
    (files : List ExtractionResult) (k : κ) (hk : truthy k = true) :
    (consolidateKind key truthy files proj).filter (fun x => decide (key x = k))
      = ((files.flatMap proj).find? (fun x => decide (key x = k))).toList := by
  unfold consolidateKind
  rw [consolidateKind_eq_dedupFold key truthy proj files ([], [])]
  have h := dedupFold_filter_eq key truthy k hk (files.flatMap proj) [] []
    (by simp)
  rw [h]
  simp

/-- Claim C1 (amended): consolidation deduplicates FIPE values on the
`(authentication, reference_period)` key with first-seen-wins, but only for
entries whose `authentication` is non-empty — for such a key the
consolidated output holds at most one entry, and exactly one as soon as any
partial file contains a value with that key.  (As the counterexample shows,
entries with an empty `authentication` are dropped entirely rather than
deduplicated, and year-models are keyed on `(authentication,
model.fipe_code)` rather than `authentication` alone, so consolidation does
not share the in-memory merge semantics for every entity kind.) -/
theorem consolidation_value_dedup (listing : List (String × ExtractionResult))
    (auth per : String) (h : auth ≠ "") :
    ((consolidateAll listing).fipe_values.countP
        (fun v => decide (cFipeValueKey v = (auth, per)))) ≤ 1
  ∧ ((∃ e ∈ listPartialFiles listing, ∃ v ∈ e.2.fipe_values,
        cFipeValueKey v = (auth, per)) →
      ((consolidateAll listing).fipe_values.countP
        (fun v => decide (cFipeValueKey v = (auth, per)))) = 1) := by
  have hk : (fun k : String × String => k.1 != "") (auth, per) = true :=
    bne_iff_ne.mpr h
  have hvals : (consolidateAll listing).fipe_values
      = consolidateKind cFipeValueKey (fun k => k.1 != "")
          ((listPartialFiles listing).map (fun e => e.2))
          (fun f => f.fipe_values) := rfl
  have hfilter := consolidateKind_filter_eq cFipeValueKey (fun k => k.1 != "")
    (fun f => f.fipe_values) ((listPartialFiles listing).map (fun e => e.2))
    (auth, per) hk
  constructor
  · rw [hvals, List.countP_eq_length_filter, hfilter]
    cases hfind : (((listPartialFiles listing).map (fun e => e.2)).flatMap
        (fun f => f.fipe_values)).find? (fun v => decide (cFipeValueKey v = (auth, per))) <;>
      simp [hfind]
  · rintro ⟨e, he, v, hv, hkey⟩
    rw [hvals, List.countP_eq_length_filter, hfilter]
    have hmem : v ∈ ((listPartialFiles listing).map (fun e => e.2)).flatMap
        (fun f => f.fipe_values) :=
      List.mem_flatMap.mpr ⟨e.2, List.mem_map_of_mem _ he, hv⟩
    have hsome : (((listPartialFiles listing).map (fun e => e.2)).flatMap
        (fun f => f.fipe_values)).find?
          (fun v => decide (cFipeValueKey v = (auth, per))) |>.isSome :=
      List.find?_isSome.mpr ⟨v, hmem, by simp [hkey]⟩
    cases hfind : (((listPartialFiles listing).map (fun e => e.2)).flatMap
        (fun f => f.fipe_values)).find?
          (fun v => decide (cFipeValueKey v = (auth, per))) with
    | none => rw [hfind] at hsome; simp at hsome
    | some w => simp

/-- Counterexample for C1 as frozen: two partial files each holding a
`FipeValue` with the same `("", "01/2024")` identity key yield ZERO
consolidated entries, not one, because consolidation drops entries whose
`authentication` is empty — while the in-memory merge of the same two
results keeps exactly one entry for that key. -/
theorem consolidation_value_dedup_cx :
    cxFileA.fipe_values.map cFipeValueKey = [("", "01/2024")]
  ∧ cxFileB.fipe_values.map cFipeValueKey = [("", "01/2024")]
  ∧ (consolidateAll cxListingC1).fipe_values = []
  ∧ (cxFileA.merge cxFileB).fipe_values.length = 1 := by
  refine ⟨rfl, rfl, rfl, rfl⟩

/-- Witness for C1 (amended): two partial files each holding a `FipeValue`
keyed `("abc123", "01/2024")` yield exactly one consolidated entry. -/
theorem consolidation_value_dedup_witness :
    ((consolidateAll wListingC1).fipe_values.countP
        (fun v => decide (cFipeValueKey v = ("abc123", "01/2024")))) = 1 := by
  refine (consolidation_value_dedup wListingC1 "abc123" "01/2024"
    (by decide)).2 ?_
  exact ⟨("batch_0.json", ⟨[], [], [], [], [wVal1]⟩), by decide, wVal1,
    by decide, by decide⟩

/-- Claim C7 (amended): consolidation processes the partial files in the
order the directory enumeration yields them (`Path.glob` applies no
sorting, nor does the source), so for every identity key with a non-empty
first component the retained brand entry is the first one encountered in
that enumeration order across the files — not necessarily the one from the
lexicographically first filename. -/
theorem consolidation_first_enumerated_wins
    (listing : List (String × ExtractionResult)) (k : String × String)
    (hk : k.1 ≠ "") :
    (consolidateAll listing).brands.filter (fun b => decide (cBrandKey b = k))
      = ((allPartialBrands listing).find?
          (fun b => decide (cBrandKey b = k))).toList := by
  have hk2 : (fun q : String × String => q.1 != "") k = true := bne_iff_ne.mpr hk
  have hbrands : (consolidateAll listing).brands
      = (consolidateKind cBrandKey (fun q => q.1 != "")
          ((listPartialFiles listing).map (fun e : String × ExtractionResult => e.2))
          (fun f => f.brands)).mergeSort brandLe := rfl
  have hfe : (consolidateKind cBrandKey (fun q => q.1 != "")
        ((listPartialFiles listing).map (fun e : String × ExtractionResult => e.2))
        (fun f => f.brands)).filter (fun b => decide (cBrandKey b = k))
      = ((allPartialBrands listing).find? (fun b => decide (cBrandKey b = k))).toList :=
    consolidateKind_filter_eq cBrandKey (fun q => q.1 != "") (fun f => f.brands)
      ((listPartialFiles listing).map (fun e : String × ExtractionResult => e.2)) k hk2
  have hperm : List.Perm
      (((consolidateKind cBrandKey (fun q => q.1 != "")
        ((listPartialFiles listing).map (fun e : String × ExtractionResult => e.2))
        (fun f => f.brands)).mergeSort brandLe).filter
          (fun b => decide (cBrandKey b = k)))
      ((consolidateKind cBrandKey (fun q => q.1 != "")
          ((listPartialFiles listing).map (fun e : String × ExtractionResult => e.2))
          (fun f => f.brands)).filter (fun b => decide (cBrandKey b = k))) :=
    (List.mergeSort_perm _ brandLe).filter _
  rw [hbrands]
  rw [hfe] at hperm
  cases hfind : (allPartialBrands listing).find? (fun b => decide (cBrandKey b = k)) with
  | none =>
      rw [hfind] at hperm
      simpa using hperm
  | some b =>
      rw [hfind] at hperm
      simpa using List.perm_singleton.mp (by simpa using hperm)

/-- Counterexample for C7 as frozen: with the enumeration yielding "b.json"
before "a.json", the retained entry for the key `("X", "car")` is the one
from "b.json" (code 1), although "a.json" is the lexicographically first
filename and carries a different entry (code 2). -/
theorem consolidation_first_enumerated_wins_cx :
    charsLt "a.json".data "b.json".data = true
  ∧ (consolidateAll cxListingC7).brands = [⟨"X", 1, "car", none⟩]
  ∧ cxFileBrand2.brands = [⟨"X", 2, "car", none⟩]
  ∧ (consolidateAll cxListingC7).brands.contains ⟨"X", 2, "car", none⟩ = false := by
  have h1 : consolidateKind cBrandKey (fun q => q.1 != "")
      ((listPartialFiles cxListingC7).map (fun e : String × ExtractionResult => e.2))
      (fun f => f.brands) = [⟨"X", 1, "car", none⟩] := rfl
  have h2 : (consolidateAll cxListingC7).brands = [⟨"X", 1, "car", none⟩] := by
    rw [show (consolidateAll cxListingC7).brands
        = (consolidateKind cBrandKey (fun q => q.1 != "")
            ((listPartialFiles cxListingC7).map
              (fun e : String × ExtractionResult => e.2))
            (fun f => f.brands)).mergeSort brandLe from rfl, h1,
      List.mergeSort_singleton]
  refine ⟨by decide, h2, rfl, ?_⟩
  rw [h2]
  decide

/-- Witness for C7 (amended): on the concrete unsorted listing, the filter
of the consolidated brands at key `("X", "car")` is exactly the first
entry in enumeration order. -/
theorem consolidation_first_enumerated_wins_witness :
    (consolidateAll cxListingC7).brands.filter
        (fun b => decide (cBrandKey b = ("X", "car"))) = [⟨"X", 1, "car", none⟩] := by
  have h := consolidation_first_enumerated_wins cxListingC7 ("X", "car")
    (by decide)
  rw [h]
  rfl

/-! ## Client retry lemmas -/

/-- When every attempt fails with a retryable error, the retry loop started
at attempt `a` with `g` attempts left runs exactly `g` more transport
invocations and ends with a `RetryError` wrapping the error of attempt
`maxAttempts`. -/
theorem runCallGo_exhausts (maxAttempts : Nat) (transport : Nat → TransportOutcome)
    (hall : ∀ n, ∃ e, makeRequestOnce (transport n) = .error e ∧ isRetryable e = true) :
    ∀ (g a : Nat), 1 ≤ g → a + g = maxAttempts + 1 →
      (runCallGo maxAttempts transport a g).2 = g
      ∧ ∃ e, makeRequestOnce (transport maxAttempts) = .error e
          ∧ isRetryable e = true
          ∧ (runCallGo maxAttempts transport a g).1 = .error (.retryExhausted e) := by
  intro g
  induction g with
  | zero => intro a h1 _; exact absurd h1 (by omega)
  | succ g ih =>
      intro a _ hsum
      obtain ⟨e, he, hr⟩ := hall a
      by_cases hstop : maxAttempts ≤ a
      · have hg : g = 0 := by omega
        have ha : a = maxAttempts := by omega
        subst hg
        constructor
        · simp [runCallGo, he, hr, hstop]
        · subst ha
          exact ⟨e, he, hr, by simp [runCallGo, he, hr, hstop]⟩
      · have hg1 : 1 ≤ g := by omega
        have hsum2 : (a + 1) + g = maxAttempts + 1 := by omega
        obtain ⟨ih2, e2, he2, hr2, hres⟩ := ih (a + 1) hg1 hsum2
        constructor
        · simp [runCallGo, he, hr, hstop, ih2]
        · exact ⟨e2, he2, hr2, by simp [runCallGo, he, hr, hstop, hres]⟩

/-- Claim C3 (amended): with a transport failing with a retryable error on
every attempt, a client call performs exactly `maxAttempts` transport
invocations and then raises — but what reaches the caller is a
retry-exhaustion error (`tenacity.RetryError`, since `reraise=True` is not
set) wrapping the last retryable error, not that error re-raised itself. -/
theorem retry_exhaustion_count_and_wrap (maxAttempts : Nat)
    (transport : Nat → TransportOutcome) (hmax : 1 ≤ maxAttempts)
    (hall : ∀ n, ∃ e, makeRequestOnce (transport n) = .error e ∧ isRetryable e = true) :
    (runCall maxAttempts transport).2 = maxAttempts
    ∧ ∃ e, makeRequestOnce (transport maxAttempts) = .error e
        ∧ isRetryable e = true
        ∧ (runCall maxAttempts transport).1 = .error (.retryExhausted e) :=
  runCallGo_exhausts maxAttempts transport hall maxAttempts 1 hmax (by omega)

/-- Counterexample for C3 as frozen: with an always-timing-out transport and
the default five attempts, the call raises after five invocations but the
raised value is the `RetryError` wrapper, which is a different error value
from the directly re-raised timeout the claim promises. -/
theorem retry_exhaustion_cx :
    runCall MAX_RETRIES wTransportTimeout
      = (Except.error (CallError.retryExhausted AttemptError.timedOut), 5)
    ∧ decide (CallError.retryExhausted AttemptError.timedOut
        = CallError.direct AttemptError.timedOut) = false :=
  ⟨rfl, rfl⟩

/-- Witness for C3 (amended), at the always-timing-out transport and the
default `MAX_RETRIES = 5`. -/
theorem retry_exhaustion_count_and_wrap_witness :
    (runCall MAX_RETRIES wTransportTimeout).2 = MAX_RETRIES
    ∧ ∃ e, makeRequestOnce (wTransportTimeout MAX_RETRIES) = .error e
        ∧ isRetryable e = true
        ∧ (runCall MAX_RETRIES wTransportTimeout).1 = .error (.retryExhausted e) :=
  retry_exhaustion_count_and_wrap MAX_RETRIES wTransportTimeout (by decide)
    (fun _ => ⟨.timedOut, rfl, rfl⟩)

/-- Claim C5: classification of the HTTP outcomes of a single client call —
a 200 with parseable JSON and no `"erro"` field returns the body; a 429
raises a retryable rate-limit error; a status ≥ 500 raises a retryable
error; any other non-200 status raises a non-retryable error after exactly
one transport invocation; an unparseable 200 body raises a non-retryable
error; a parseable body with an `"erro"` field raises a retryable error iff
the message contains "timeout" or "blocked" case-insensitively, otherwise a
non-retryable error carrying that message. -/
theorem client_outcome_classification :
    (∀ b text, bodyParsesClean b = true →
      makeRequestOnce (.http 200 b text) = .ok b)
  ∧ (∀ b text, makeRequestOnce (.http 429 b text)
        = .error (.rateLimit "Rate limit atingido")
      ∧ isRetryable (.rateLimit "Rate limit atingido") = true)
  ∧ (∀ s b text, 500 ≤ s →
      makeRequestOnce (.http s b text)
        = .error (.rateLimit ("Erro de servidor: " ++ toString s))
      ∧ isRetryable (.rateLimit ("Erro de servidor: " ++ toString s)) = true)
  ∧ (∀ s b text, s ≠ 200 → s ≠ 429 → s < 500 →
      makeRequestOnce (.http s b text)
        = .error (.request ("Erro HTTP " ++ toString s ++ ": " ++ text.take 200))
      ∧ isRetryable (.request ("Erro HTTP " ++ toString s ++ ": " ++ text.take 200))
          = false)
  ∧ (∀ maxAttempts b text, 1 ≤ maxAttempts →
      runCall maxAttempts (fun _ => .http 404 b text)
        = (.error (.direct (.request
            ("Erro HTTP " ++ toString 404 ++ ": " ++ text.take 200))), 1))
  ∧ (∀ text, makeRequestOnce (.http 200 .invalid text)
        = .error (.request ("Resposta inválida: " ++ text.take 200))
      ∧ isRetryable (.request ("Resposta inválida: " ++ text.take 200)) = false)
  ∧ (∀ msg text, makeRequestOnce (.http 200 (.obj (some msg)) text)
        = .error (if isBlockingMsg msg then .rateLimit msg else .request msg)
      ∧ isRetryable (if isBlockingMsg msg then .rateLimit msg else .request msg)
          = isBlockingMsg msg) := by
  refine ⟨?_, ?_, ?_, ?_, ?_, ?_, ?_⟩
  · intro b text hb
    cases b with
    | invalid => simp [bodyParsesClean] at hb
    | obj erro =>
        cases erro with
        | none => simp [makeRequestOnce]
        | some m => simp [bodyParsesClean] at hb
    | arr => simp [makeRequestOnce]
  · intro b text
    exact ⟨by simp [makeRequestOnce], rfl⟩
  · intro s b text hs
    have h1 : s ≠ 429 := by omega
    have h2 : s ≠ 200 := by omega
    exact ⟨by simp [makeRequestOnce, h1, h2, hs], rfl⟩
  · intro s b text h200 h429 h500
    have hn : ¬(500 ≤ s) := by omega
    exact ⟨by simp [makeRequestOnce, h429, h200, hn], rfl⟩
  · intro maxAttempts b text hmax
    cases maxAttempts with
    | zero => exact absurd hmax (by omega)
    | succ m =>
        have hreq : makeRequestOnce (.http 404 b text)
            = .error (.request ("Erro HTTP " ++ toString 404 ++ ": " ++ text.take 200)) := by
          simp [makeRequestOnce]
        simp [runCall, runCallGo, hreq, isRetryable]
  · intro text
    exact ⟨by simp [makeRequestOnce], rfl⟩
  · intro msg text
    by_cases hb : isBlockingMsg msg <;>
      exact ⟨by simp [makeRequestOnce, hb], by simp [isRetryable, hb]⟩

/-- Witness for C5, one concrete instance per classification branch. -/
theorem client_outcome_classification_witness :
    makeRequestOnce (.http 200 (.obj none) "") = .ok (.obj none)
  ∧ makeRequestOnce (.http 429 (.obj none) "")
      = .error (.rateLimit "Rate limit atingido")
  ∧ makeRequestOnce (.http 503 (.obj none) "oops")
      = .error (.rateLimit ("Erro de servidor: " ++ toString 503))
  ∧ makeRequestOnce (.http 404 (.obj none) "nf")
      = .error (.request ("Erro HTTP " ++ toString 404 ++ ": "
          ++ ("nf" : String).take 200))
  ∧ runCall MAX_RETRIES (fun _ => .http 404 (.obj none) "nf")
      = (.error (.direct (.request ("Erro HTTP " ++ toString 404 ++ ": "
          ++ ("nf" : String).take 200))), 1)
  ∧ makeRequestOnce (.http 200 .invalid "<html>")
      = .error (.request ("Resposta inválida: " ++ ("<html>" : String).take 200))
  ∧ makeRequestOnce (.http 200 (.obj (some "Request Timeout")) "")
      = .error (.rateLimit "Request Timeout")
  ∧ makeRequestOnce (.http 200 (.obj (some "erro qualquer")) "")
      = .error (.request "erro qualquer") := by
  have h := client_outcome_classification
  refine ⟨h.1 (.obj none) "" rfl, (h.2.1 (.obj none) "").1,
    (h.2.2.1 503 (.obj none) "oops" (by omega)).1,
    (h.2.2.2.1 404 (.obj none) "nf" (by omega) (by omega) (by omega)).1,
    h.2.2.2.2.1 MAX_RETRIES (.obj none) "nf" (by decide), (h.2.2.2.2.2.1 "<html>").1,
    ?_, ?_⟩
  · have h7 := (h.2.2.2.2.2.2 "Request Timeout" "").1
    rw [h7]
    simp [show isBlockingMsg "Request Timeout" = true from by decide]
  · have h7 := (h.2.2.2.2.2.2 "erro qualquer" "").1
    rw [h7]
    simp [show isBlockingMsg "erro qualquer" = false from by decide]

/-! ## Pacing -/

/-- The dispatch moment is never less than `delay` after the stored
timestamp. -/
theorem dispatchTime_ge (delay last now : ℚ) :
    last + delay ≤ dispatchTime delay last now := by
  simp only [dispatchTime]
  split_ifs with h
  · linarith
  · linarith

/-- Claim C9: for any two consecutive calls on the same client instance the
wall-clock gap between dispatches is at least the configured pacing delay —
the client stores the timestamp of the last dispatch, sleeps before each
call until at least `delay` has elapsed since it, then updates it. -/
theorem pacing_minimum_gap (delay last : ℚ) (nows : List ℚ) :
    List.Chain' (fun a b => a + delay ≤ b) (paceTrace delay last nows) := by
  induction nows generalizing last with
  | nil => simp [paceTrace]
  | cons now rest ih =>
      simp only [paceTrace]
      refine List.chain'_cons'.mpr ⟨?_, ih (dispatchTime delay last now)⟩
      intro y hy
      cases rest with
      | nil => simp [paceTrace] at hy
      | cons n2 r2 =>
          simp only [paceTrace, List.head?_cons, Option.mem_def,
            Option.some.injEq] at hy
          rw [← hy]
          exact dispatchTime_ge delay (dispatchTime delay last now) n2

/-! ## Value extraction -/

/-- Claim C6: a successful value lookup backfills the returned
authentication into the caller's `YearModel`; the returned `fipe_code` is
written into the owning `Model` only when the model's code is currently
empty (a non-empty code is never overwritten); a new `FipeValue` carrying
the response fields and the period is returned; and a failed lookup
returns no value and mutates nothing, without propagating the failure. -/
theorem value_lookup_backfill (period : ReferencePeriod) (ym : YearModel)
    (ts : String) (resp : ValueResp) :
    (extractFipeValue period ym ts (.success resp)).1.authentication
      = resp.autenticacao
  ∧ (ym.model.fipe_code ≠ "" →
      (extractFipeValue period ym ts (.success resp)).1.model.fipe_code
        = ym.model.fipe_code)
  ∧ (ym.model.fipe_code = "" → resp.codigoFipe ≠ "" →
      (extractFipeValue period ym ts (.success resp)).1.model.fipe_code
        = resp.codigoFipe)
  ∧ (extractFipeValue period ym ts (.success resp)).2
      = some
        { year_model := (extractFipeValue period ym ts (.success resp)).1
          average_price := resp.valor
          query_timestamp := ts
          reference_period := period.period
          fipe_code := resp.codigoFipe
          fuel := resp.combustivel }
  ∧ extractFipeValue period ym ts .failure = (ym, none) := by
  refine ⟨rfl, ?_, ?_, rfl, rfl⟩
  · intro hne
    simp [extractFipeValue, hne]
  · intro h1 h2
    simp [extractFipeValue, h1, h2]

/-- Witness for C6 at the spec's §8 scenario: the model starts with an
empty `fipe_code`, the response carries `001004-9` and `abc123`. -/
theorem value_lookup_backfill_witness :
    (extractFipeValue wPeriod wYmEmpty "ts" (.success wResp)).1.authentication
      = "abc123"
  ∧ (extractFipeValue wPeriod wYmEmpty "ts" (.success wResp)).1.model.fipe_code
      = "001004-9"
  ∧ extractFipeValue wPeriod wYmEmpty "ts" .failure = (wYmEmpty, none) := by
  have h := value_lookup_backfill wPeriod wYmEmpty "ts" wResp
  exact ⟨h.1, h.2.2.1 rfl (by decide), h.2.2.2.2⟩

/-! ## Worker lemmas -/

/-- The year-model loop never touches the brands or models collections of
the accumulator, whether it completes or aborts. -/
theorem runYearModels_acc_inv (period : ReferencePeriod) (ts : String) :
    ∀ (l : List (YmSeed × YmStep)) (m : Model) (acc : ExtractionResult),
      (ymAcc (runYearModels period ts m acc l)).brands = acc.brands
      ∧ (ymAcc (runYearModels period ts m acc l)).models = acc.models := by
  intro l
  induction l with
  | nil => intro m acc; exact ⟨rfl, rfl⟩
  | cons p rest ih =>
      intro m acc
      obtain ⟨seed, step⟩ := p
      cases step with
      | raised => exact ⟨rfl, rfl⟩
      | lookup out =>
          cases out with
          | failure =>
              simpa [runYearModels, extractFipeValue] using ih m acc
          | success resp =>
              simpa [runYearModels, extractFipeValue] using ih _ _

/-- The year-model loop completes exactly when no step of it raises. -/
theorem runYearModels_ok_iff (period : ReferencePeriod) (ts : String) :
    ∀ (l : List (YmSeed × YmStep)) (m : Model) (acc : ExtractionResult),
      (∃ pr, runYearModels period ts m acc l = .ok pr)
        ↔ l.any (fun p => p.2.isRaise) = false := by
  intro l
  induction l with
  | nil =>
      intro m acc
      simp [runYearModels]
  | cons p rest ih =>
      intro m acc
      obtain ⟨seed, step⟩ := p
      cases step with
      | raised => simp [runYearModels, YmStep.isRaise]
      | lookup out =>
          cases out with
          | failure =>
              simpa [runYearModels, extractFipeValue, YmStep.isRaise]
                using ih m acc
          | success resp =>
              simpa [runYearModels, extractFipeValue, YmStep.isRaise]
                using ih _ _

/-- The model loop never touches the brands collection. -/
theorem runModels_brands_inv (period : ReferencePeriod) (brand : Brand)
    (ts : String) :
    ∀ (steps : List ModelStep) (acc : ExtractionResult),
      (mAcc (runModels period brand ts acc steps)).brands = acc.brands := by
  intro steps
  induction steps with
  | nil => intro acc; rfl
  | cons step rest ih =>
      intro acc
      cases hc : step.ymCall with
      | none => simp [runModels, hc, mAcc]
      | some ymSteps =>
          have hinv := runYearModels_acc_inv period ts ymSteps
            (mkModel brand step.seed) acc
          cases hr : runYearModels period ts (mkModel brand step.seed) acc ymSteps with
          | error acc1 =>
              rw [hr] at hinv
              simpa [runModels, hc, hr, mAcc] using hinv.1
          | ok pr =>
              obtain ⟨m1, acc1⟩ := pr
              rw [hr] at hinv
              have h2 := ih (if m1.fipe_code ≠ ""
                then { acc1 with models := acc1.models ++ [m1] } else acc1)
              simp only [runModels, hc, hr] at h2 ⊢
              rw [h2]
              by_cases hm : m1.fipe_code ≠ "" <;>
                simpa [hm] using hinv.1

/-- The model loop completes exactly when no model's processing raises. -/
theorem runModels_ok_iff (period : ReferencePeriod) (brand : Brand)
    (ts : String) :
    ∀ (steps : List ModelStep) (acc : ExtractionResult),
      (∃ r, runModels period brand ts acc steps = .ok r)
        ↔ steps.any ModelStep.raises = false := by
  intro steps
  induction steps with
  | nil => intro acc; simp [runModels]
  | cons step rest ih =>
      intro acc
      cases hc : step.ymCall with
      | none => simp [runModels, hc, ModelStep.raises]
      | some ymSteps =>
          cases hr : runYearModels period ts (mkModel brand step.seed) acc ymSteps with
          | error acc1 =>
              have hany : ymSteps.any (fun p => p.2.isRaise) = true := by
                by_contra hfalse
                have := (runYearModels_ok_iff period ts ymSteps
                  (mkModel brand step.seed) acc).mpr
                  (Bool.eq_false_iff.mpr hfalse)
                obtain ⟨pr, hpr⟩ := this
                rw [hr] at hpr
                exact Except.noConfusion hpr
              simp [runModels, hc, hr, ModelStep.raises, hany]
          | ok pr =>
              obtain ⟨m1, acc1⟩ := pr
              have hany : ymSteps.any (fun p => p.2.isRaise) = false :=
                (runYearModels_ok_iff period ts ymSteps
                  (mkModel brand step.seed) acc).mp ⟨(m1, acc1), hr⟩
              have h2 := ih (if m1.fipe_code ≠ ""
                then { acc1 with models := acc1.models ++ [m1] } else acc1)
              simp only [runModels, hc, hr]
              rw [h2]
              simp [ModelStep.raises, hc, hany]

/-- Every model the model loop adds to the accumulator carries a non-empty
`fipe_code`. -/
theorem runModels_models_nonempty (period : ReferencePeriod) (brand : Brand)
    (ts : String) :
    ∀ (steps : List ModelStep) (acc : ExtractionResult),
      (∀ m ∈ acc.models, m.fipe_code ≠ "") →
      ∀ m ∈ (mAcc (runModels period brand ts acc steps)).models,
        m.fipe_code ≠ "" := by
  intro steps
  induction steps with
  | nil => intro acc hacc; exact hacc
  | cons step rest ih =>
      intro acc hacc
      cases hc : step.ymCall with
      | none => simpa [runModels, hc, mAcc] using hacc
      | some ymSteps =>
          have hinv := runYearModels_acc_inv period ts ymSteps
            (mkModel brand step.seed) acc
          cases hr : runYearModels period ts (mkModel brand step.seed) acc ymSteps with
          | error acc1 =>
              rw [hr] at hinv
              simp only [runModels, hc, hr]
              intro m hm
              exact hacc m (by rw [← hinv.2]; exact hm)
          | ok pr =>
              obtain ⟨m1, acc1⟩ := pr
              rw [hr] at hinv
              simp only [runModels, hc, hr]
              refine ih _ ?_
              intro m hm
              by_cases hm1 : m1.fipe_code ≠ ""
              · rw [if_pos hm1] at hm
                simp only [List.mem_append, List.mem_singleton] at hm
                rcases hm with hm | rfl
                · exact hacc m (by rw [← hinv.2]; exact hm)
                · exact hm1
              · rw [if_neg hm1] at hm
                exact hacc m (by rw [← hinv.2]; exact hm)

/-- Claim C2 (amended): an error raised during a task's extraction is
caught inside the worker, which still returns the fragment accumulated up
to the raise point — the trailing brand append is skipped, so the brand is
in the fragment exactly when nothing raised.  As the counterexample shows,
such a fragment can still contribute entities to the aggregate; only a
task whose future itself fails at collection time is dropped, and there is
no retry either way. -/
theorem worker_error_keeps_partial_fragment (period : ReferencePeriod)
    (brand : Brand) (ts : String) (script : WorkerScript) :
    (extractWorker period brand ts script).brands
      = (if script.raises = true then [] else [brand]) := by
  obtain ⟨mc⟩ := script
  cases mc with
  | none => rfl
  | some steps =>
      cases hr : runModels period brand ts ExtractionResult.empty steps with
      | error acc =>
          have hany : steps.any ModelStep.raises = true := by
            by_contra hfalse
            obtain ⟨r, hok⟩ := (runModels_ok_iff period brand ts steps
              ExtractionResult.empty).mpr (Bool.eq_false_iff.mpr hfalse)
            rw [hr] at hok
            exact Except.noConfusion hok
          have hbr := runModels_brands_inv period brand ts steps
            ExtractionResult.empty
          rw [hr] at hbr
          simpa [extractWorker, WorkerScript.raises, hr, hany, mAcc] using hbr
      | ok acc =>
          have hany : steps.any ModelStep.raises = false :=
            (runModels_ok_iff period brand ts steps
              ExtractionResult.empty).mp ⟨acc, hr⟩
          have hbr := runModels_brands_inv period brand ts steps
            ExtractionResult.empty
          rw [hr] at hbr
          simp only [mAcc] at hbr
          simp only [extractWorker, hr]
          simp [WorkerScript.raises, hany, hbr, ExtractionResult.empty]

/-- Counterexample for C2 as frozen: a task whose execution raises (second
value lookup) still contributes two entities (one year-model and one FIPE
value) to the aggregate — its fragment is not dropped, only the brand
append is skipped. -/
theorem worker_error_keeps_partial_fragment_cx :
    WorkerScript.raises cxScriptC2 = true
  ∧ entityCount (extractWorker wPeriod wBrand "ts" cxScriptC2) = 2
  ∧ (extractWorker wPeriod wBrand "ts" cxScriptC2).year_models.length = 1
  ∧ (extractWorker wPeriod wBrand "ts" cxScriptC2).fipe_values.length = 1
  ∧ (extractWorker wPeriod wBrand "ts" cxScriptC2).brands = [] :=
  ⟨rfl, rfl, rfl, rfl, rfl⟩

/-- Claim C10 (implicit): the worker's fragment contains a model only if
the model's `fipe_code` is non-empty after processing — a model whose
value lookups all failed (or returned no `fipe_code`) is silently absent —
while the brand still joins the fragment whenever nothing raised. -/
theorem worker_model_requires_fipe_code (period : ReferencePeriod)
    (brand : Brand) (ts : String) (script : WorkerScript) :
    ((extractWorker period brand ts script).models.countP
        (fun m => decide (m.fipe_code = ""))) = 0
  ∧ (script.raises = false →
      (extractWorker period brand ts script).brands = [brand]) := by
  constructor
  · rw [List.countP_eq_zero]
    intro m hm
    simp only [decide_eq_true_eq]
    obtain ⟨mc⟩ := script
    cases mc with
    | none => simp [extractWorker, ExtractionResult.empty] at hm
    | some steps =>
        have hbase : ∀ x ∈ ExtractionResult.empty.models, x.fipe_code ≠ "" := by
          intro x hx
          simp [ExtractionResult.empty] at hx
        have hall := runModels_models_nonempty period brand ts steps
          ExtractionResult.empty hbase
        cases hr : runModels period brand ts ExtractionResult.empty steps with
        | error acc =>
            rw [hr] at hall
            simp only [extractWorker, hr] at hm
            exact hall m hm
        | ok acc =>
            rw [hr] at hall
            simp only [extractWorker, hr] at hm
            exact hall m hm
  · intro hnr
    obtain ⟨mc⟩ := script
    cases mc with
    | none => simp [WorkerScript.raises] at hnr
    | some steps =>
        have hany : steps.any ModelStep.raises = false := by
          simpa [WorkerScript.raises] using hnr
        obtain ⟨acc, hr⟩ := (runModels_ok_iff period brand ts steps
          ExtractionResult.empty).mpr hany
        have hbr := runModels_brands_inv period brand ts steps
          ExtractionResult.empty
        rw [hr] at hbr
        simp only [mAcc] at hbr
        simp only [extractWorker, hr]
        simp [hbr, ExtractionResult.empty]

/-- Witness for C10: in a fully successful run the kept model carries the
backfilled `fipe_code`; in a run whose only value lookup failed, the models
list is empty while the brand still contributes. -/
theorem worker_model_requires_fipe_code_witness :
    ((extractWorker wPeriod wBrand "ts" wScriptOk).models.countP
        (fun m => decide (m.fipe_code = ""))) = 0
  ∧ (extractWorker wPeriod wBrand "ts" wScriptC10).brands = [wBrand]
  ∧ (extractWorker wPeriod wBrand "ts" wScriptC10).models = []
  ∧ (extractWorker wPeriod wBrand "ts" wScriptOk).models.map
      (fun m => m.fipe_code) = ["001004-9"] := by
  refine ⟨(worker_model_requires_fipe_code wPeriod wBrand "ts" wScriptOk).1,
    (worker_model_requires_fipe_code wPeriod wBrand "ts" wScriptC10).2 rfl,
    rfl, rfl⟩

end Fipe
